import Mathlib

/-!
Verification of the unread-count reconciliation engine of the
Gmail-Labels-Queries-As-Tabs browser extension.

The definitions below are shallow embeddings of the TypeScript source:

* `findCounts`, `isValidLabel`, `parseGmailJson`, `processResponse`
  embed the Response Stream Decoder running in the page-world script
  (source file `pageWorld`-side script, `findCounts` / `isValidLabel` /
  `parseGmailJson` / `processResponse`).
* `normalizeLabel`, `updateUnreadCount`, `getUnreadCountFromDOM`'s count
  extraction, and `handleUnreadUpdates`'s per-tab logic embed
  `content.ts`.

JavaScript strings are modelled as Lean `String`s (character-based
lengths; the claims below only exercise ASCII data, where the two
notions agree).  JSON numbers are modelled as `Int` (the payloads the
claims quantify over are integer counts).  `JSON.parse` and the DOM are
external platform services and appear as explicit parameters.
-/

/-- Generic parsed-JSON tree, the shape `JSON.parse` can return. -/
inductive JsonValue where
  | null : JsonValue
  | bool (b : Bool) : JsonValue
  | num (n : Int) : JsonValue
  | str (s : String) : JsonValue
  | arr (xs : List JsonValue) : JsonValue
  | obj (fields : List (String × JsonValue)) : JsonValue

/-- One decoded (identifier, count) pair.  Embeds the `UnreadUpdate`
interface of the page-world script. -/
structure UnreadUpdate where
  label : String
  count : Int
deriving DecidableEq

/-- `needle` is an initial segment of `hay` (character lists). -/
def listStarts : List Char → List Char → Bool
  | [], _ => true
  | _ :: _, [] => false
  | a :: as, b :: bs => a == b && listStarts as bs

/-- `sub` occurs as a contiguous substring of the character list.
Embeds JavaScript `String.prototype.includes`. -/
def listHas (needle : List Char) : List Char → Bool
  | [] => listStarts needle []
  | c :: cs => listStarts needle (c :: cs) || listHas needle cs

/-- `s.includes(sub)` on JavaScript strings. -/
def strHas (s sub : String) : Bool := listHas sub.toList s.toList

/-- `s.startsWith(pre)` on JavaScript strings. -/
def strStarts (s pre : String) : Bool := listStarts pre.toList s.toList

/-- Drop the first `n` characters (the string remainder after a
`.replace(prefixLiteral, '')` whose occurrence is at position 0). -/
def strDrop (s : String) (n : Nat) : String := String.mk (s.toList.drop n)

/-- Embeds `isValidLabel` from the page-world script: the plausibility
filter applied to candidate identifiers found by the recursive walk. -/
def isValidLabel (label : String) : Bool :=
  if label = "" then false            -- `if (!label) return false`
  else if strHas label "http" then false
  else if strHas label "gmail/att/" then false
  else if strHas label "/" && strStarts label "/" then false
  else if label.length > 80 then false
  else true

/-- The candidate-tuple check `findCounts` performs at each array node:
length >= 2, index 0 a string, index 1 a number, filtered through
`isValidLabel`. -/
def tupleCand : List JsonValue → List UnreadUpdate
  | .str labelId :: .num count :: _ =>
      if isValidLabel labelId then [⟨labelId, count⟩] else []
  | _ => []

mutual

/-- Embeds `findCounts` from the page-world script: recursive walk over
the parsed structure collecting candidate (identifier, count) tuples.
The JavaScript version pushes into a mutable accumulator in the same
left-to-right order this version concatenates in. -/
def findCounts : JsonValue → List UnreadUpdate
  | .null => []
  | .bool _ => []
  | .num _ => []
  | .str _ => []
  | .arr xs => tupleCand xs ++ findCountsList xs
  | .obj fields => findCountsFields fields

/-- The `for (const item of obj) findCounts(item, updates)` loop. -/
def findCountsList : List JsonValue → List UnreadUpdate
  | [] => []
  | x :: xs => findCounts x ++ findCountsList xs

/-- The `for (const key in obj) findCounts(obj[key], updates)` loop. -/
def findCountsFields : List (String × JsonValue) → List UnreadUpdate
  | [] => []
  | (_, v) :: fs => findCounts v ++ findCountsFields fs

end

/-- The anti-hijacking marker Gmail prepends to JSON bodies: the four
characters `)]}` plus apostrophe, then a newline (the regex
`^\)]}'\n` in `parseGmailJson`). -/
def antiHijackMarker : List Char := [')', ']', '}', '\x27', '\n']

/-- `text.replace(/^\)]}'\n/, '')`: remove the anchored marker once,
when present. -/
def antiHijackStrip (text : String) : String :=
  if listStarts antiHijackMarker text.toList then
    String.mk (text.toList.drop 5)
  else text

/-- Embeds `parseGmailJson`: strip the marker, then hand the remainder
to `JSON.parse`; a parse failure is caught and becomes `null`.
`jsonParse` is the external platform parser (`none` = throws). -/
def parseGmailJson (jsonParse : String → Option JsonValue) (text : String) :
    Option JsonValue :=
  jsonParse (antiHijackStrip text)

/-- JavaScript falsiness of a parsed JSON value (`!data`). -/
def jsFalsy : JsonValue → Bool
  | .null => true
  | .bool b => !b
  | .num n => n == 0
  | .str s => s == ""
  | _ => false

/-- Embeds `processResponse`: parse, bail out on `null`/falsy data,
otherwise run the recursive count walk.  Returns the list of Update
Events that would be dispatched. -/
def processResponse (jsonParse : String → Option JsonValue) (text : String) :
    List UnreadUpdate :=
  match parseGmailJson jsonParse text with
  | none => []
  | some data => if jsFalsy data then [] else findCounts data

/-! ### Shared string helpers of `content.ts` -/

/-- Whitespace as matched by the `\s` regex class (ASCII portion). -/
def isJsWs (c : Char) : Bool :=
  c == ' ' || c == '\t' || c == '\n' || c == '\r' || c == '\x0b' || c == '\x0c'

/-- Value of a hexadecimal digit, if any. -/
def hexVal (c : Char) : Option Nat :=
  if '0' ≤ c ∧ c ≤ '9' then some (c.toNat - '0'.toNat)
  else if 'a' ≤ c ∧ c ≤ 'f' then some (c.toNat - 'a'.toNat + 10)
  else if 'A' ≤ c ∧ c ≤ 'F' then some (c.toNat - 'A'.toNat + 10)
  else none

/-- Model of `decodeURIComponent`: each `%XX` escape becomes the
character with code `XX`.  (The platform function additionally
recombines UTF-8 multi-byte sequences and throws on malformed escapes;
the claims below only exercise single-byte escapes and plain text,
where this model agrees with it.) -/
def percentDecode : List Char → List Char
  | '%' :: a :: b :: rest =>
    match hexVal a, hexVal b with
    | some ha, some hb => Char.ofNat (16 * ha + hb) :: percentDecode rest
    | _, _ => '%' :: percentDecode (a :: b :: rest)
  | c :: rest => c :: percentDecode rest
  | [] => []

/-- `s.toLowerCase()` (ASCII model of the Unicode platform function). -/
def lowerStr (s : String) : String :=
  String.mk (s.toList.map Char.toLower)

/-- One pass of `.replace(/\s+/g, ' ')`: each maximal whitespace run
becomes a single space.  The Boolean tracks whether the previous
character was whitespace (i.e. we are inside a run). -/
def collapseWsAux : Bool → List Char → List Char
  | _, [] => []
  | prevWs, c :: cs =>
    if isJsWs c then
      if prevWs then collapseWsAux true cs else ' ' :: collapseWsAux true cs
    else c :: collapseWsAux false cs

def collapseWs (l : List Char) : List Char := collapseWsAux false l

/-- `s.trim()`: strip whitespace from both ends. -/
def trimWs (l : List Char) : List Char :=
  ((l.dropWhile isJsWs).reverse.dropWhile isJsWs).reverse

/-- Embeds `normalizeLabel` from `content.ts`: percent-decode,
lowercase, map the separators `/`, `-`, `_` to spaces, collapse
whitespace runs, trim. -/
def normalizeLabel (name : String) : String :=
  let decoded := percentDecode name.toList
  let lowered := decoded.map Char.toLower
  let seps := lowered.map (fun c => if c == '/' || c == '-' || c == '_' then ' ' else c)
  String.mk (trimWs (collapseWs seps))

/-- Numeric value of a digit string. -/
def digitsVal (ds : List Char) : Nat :=
  ds.foldl (fun acc c => 10 * acc + (c.toNat - '0'.toNat)) 0

/-- Leading-digit parse under an already-consumed sign. -/
def jsParseIntDigits (cs : List Char) (sign : Int) : Option Int :=
  let ds := cs.takeWhile Char.isDigit
  if ds.isEmpty then none else some (sign * (digitsVal ds : Int))

/-- Model of `parseInt(s, 10)`: skip leading whitespace, optional sign,
then leading digits; `none` models `NaN`. -/
def jsParseInt (s : String) : Option Int :=
  match s.toList.dropWhile isJsWs with
  | '-' :: r => jsParseIntDigits r (-1)
  | '+' :: r => jsParseIntDigits r 1
  | cs => jsParseIntDigits cs 1

/-! ### Path A: `updateUnreadCount` (feed fetch, then DOM scrape) -/

/-- The two `Tab.type` values of the configuration store
(`'label' | 'hash'`). -/
inductive TabType where
  | label : TabType
  | hash : TabType
deriving DecidableEq

/-- A configured shortcut as `updateUnreadCount` sees it (the `id` and
`title` fields play no role there). -/
structure Tab where
  ttype : TabType
  value : String
deriving DecidableEq

/-- The `labelForFeed` variable of `updateUnreadCount` at the point of
the `labelForFeed !== undefined` guard.  The source declares
`let labelForFeed = ''` and no branch ever assigns `undefined`, so this
function never returns `none`; `Option` keeps the guard visible. -/
def labelForFeed (tab : Tab) : Option String :=
  match tab.ttype with
  | .label => some tab.value
  | .hash =>
    if tab.value = "#inbox" then some ""
    else if strStarts tab.value "#label/" then some (strDrop tab.value 7)
    else some ""    -- the initial value '' survives unchanged

/-- Outcome of the one same-origin feed fetch, as far as
`updateUnreadCount` inspects it: the fetch (or reading the body) threw;
the response was not OK; or the response parsed and the `fullcount`
element's text was as given (`none` = no `fullcount` element). -/
inductive FetchOutcome where
  | fetchError : FetchOutcome
  | respNotOk : FetchOutcome
  | okDoc (fullcountText : Option String) : FetchOutcome
deriving DecidableEq

/-- The feed phase of `updateUnreadCount`: `some b` when the phase
writes badge text `b` and returns; `none` when control falls through to
the DOM scraper.  Mirrors `if (fullcount && fullcount.textContent)` and
`count > 0 ? ... : ''` (a `NaN` from `parseInt` fails `count > 0`). -/
def feedPhase : FetchOutcome → Option String
  | .fetchError => none
  | .respNotOk => none
  | .okDoc none => none
  | .okDoc (some t) =>
    if t = "" then none        -- empty textContent is falsy: fall through
    else
      match jsParseInt t with
      | some n => if n > 0 then some (toString n) else some ""
      | none => some ""        -- NaN: `NaN > 0` is false, badge hidden

/-- The integer the feed phase managed to parse, `none` when it parsed
nothing (fetch failure, non-OK response, missing or empty `fullcount`,
or unparseable text). -/
def fetchedCount : FetchOutcome → Option Int
  | .okDoc (some t) => if t = "" then none else jsParseInt t
  | _ => none

/-- Observable result of one `updateUnreadCount` call. -/
structure UpdateRun where
  badge : String
  requestMade : Bool
  scraperInvoked : Bool
deriving DecidableEq

/-- Embeds `updateUnreadCount` from `content.ts`.  `scraped` is the
string `getUnreadCountFromDOM(tab)` would return; the final
`if (domCount) ... else ...` writes that string either way. -/
def updateUnreadCount (tab : Tab) (outcome : FetchOutcome) (scraped : String) :
    UpdateRun :=
  match labelForFeed tab with
  | some _ =>
    match feedPhase outcome with
    | some b => ⟨b, true, false⟩
    | none => ⟨scraped, true, true⟩
  | none => ⟨scraped, false, true⟩

/-! ### DOM Scraper count extraction (`getUnreadCountFromDOM`, found-link part) -/

/-- First match of the regex `/(\d+)\s+unread/`: the digit group of the
leftmost digit run that is followed by whitespace and the literal
`unread`. -/
def matchUnread : List Char → Option String
  | [] => none
  | c :: cs =>
    if c.isDigit then
      let ds := (c :: cs).takeWhile Char.isDigit
      let rest := (c :: cs).dropWhile Char.isDigit
      let rest2 := rest.dropWhile isJsWs
      if !(rest.takeWhile isJsWs).isEmpty && listStarts "unread".toList rest2 then
        some (String.mk ds)
      else matchUnread cs
    else matchUnread cs

/-- The matched category link, as the extraction code reads it:
`getAttribute('aria-label')` and, for the nested `.bsU` badge element,
its text (`none` = no such element). -/
structure CatLink where
  ariaLabel : Option String
  bsUText : Option String
deriving DecidableEq

/-- The `.bsU` fallback branch: `countEl.textContent || ''`. -/
def bsUPart (link : CatLink) : String :=
  match link.bsUText with
  | some t => t
  | none => ""

/-- Embeds the count extraction `getUnreadCountFromDOM` performs once a
category link is found: with a truthy `aria-label`, return the digit
group of `/(\d+)\s+unread/` or `''`; otherwise consult `.bsU`. -/
def extractLinkCount (link : CatLink) : String :=
  match link.ariaLabel with
  | some a =>
    if a = "" then bsUPart link      -- falsy aria-label: skip to `.bsU`
    else
      match matchUnread a.toList with
      | some d => d
      | none => ""                   -- `match ? match[1] : ''`, then return
  | none => bsUPart link

/-! ### Path B: `handleUnreadUpdates` -/

/-- The local `normalize` of `handleUnreadUpdates`:
`str.toLowerCase().replace(/[^a-z0-9]/g, '')`. -/
def normalizeKey (s : String) : String :=
  String.mk ((s.toList.map Char.toLower).filter (fun c =>
    (97 ≤ c.toNat && c.toNat ≤ 122) || (48 ≤ c.toNat && c.toNat ≤ 57)))

/-- `.replace(/\+/g, ' ')`. -/
def plusToSpace (l : List Char) : List Char :=
  l.map (fun c => if c == '+' then ' ' else c)

/-- The `labelId` derivation of `handleUnreadUpdates` from a tab
element's `dataset.type` and (truthy) `dataset.value`. -/
def deriveLabelId (dtype : Option String) (v : String) : String :=
  if dtype = some "label" then v
  else if dtype = some "hash" then
    if v = "#inbox" then "^i"
    else if v = "#starred" then "^t"
    else if v = "#drafts" then "^r"
    else if v = "#sent" then "^f"
    else if v = "#spam" then "^s"
    else if v = "#trash" then "^k"
    else if v = "#all" then "^all"
    else if strStarts v "#label/" then
      String.mk (percentDecode (plusToSpace (strDrop v 7).toList))
    else if strStarts v "#search/label:" then
      let raw := String.mk (percentDecode (strDrop v 8).toList)
      if strStarts raw "label:" then strDrop raw 6 else ""
    else ""
  else ""

/-- The Identity-Map resolution step: `domLabelMap.has(...)` then
`domLabelMap.get(...) || labelId`.  `domMap` abstracts the map
`buildLabelMapFromDOM` read from the live DOM. -/
def resolveId (domMap : String → Option String) (labelId : String) : String :=
  match domMap (lowerStr labelId) with
  | some v => if v = "" then labelId else v
  | none => labelId

/-- The key-membership test `Map.prototype.has` (JS Map keys compare
by string equality). -/
def hasKey : List (String × Int) → String → Bool
  | [], _ => false
  | (a, _) :: m, k => if a = k then true else hasKey m k

/-- The arrow function of the in-place overwrite: a binding whose key
equals the set key gets the new value, others are untouched. -/
def overwriteEntry (k : String) (v : Int) : String × Int → String × Int
  | (a, b) => if a = k then (k, v) else (a, b)

/-- `Map.prototype.set` on an insertion-ordered association list:
overwrite in place when the key exists, else append. -/
def jsMapSet (m : List (String × Int)) (k : String) (v : Int) :
    List (String × Int) :=
  if hasKey m k then m.map (overwriteEntry k v)
  else m ++ [(k, v)]

/-- `updates.forEach(u => updateMap.set(u.label, u.count))`. -/
def buildUpdateMap (updates : List UnreadUpdate) : List (String × Int) :=
  updates.foldl (fun m u => jsMapSet m u.label u.count) []

/-- `Map.prototype.get` (first — and, keys being unique in a Map, only
— binding of the key). -/
def mapGet : List (String × Int) → String → Option Int
  | [], _ => none
  | (a, b) :: m, q => if a = q then some b else mapGet m q

/-- The fuzzy fallback loop over `updateMap.entries()` (insertion
order, first match wins). -/
def fuzzyScan : List (String × Int) → String → Option Int
  | [], _ => none
  | (k, v) :: rest, target =>
    if normalizeKey k = target then some v else fuzzyScan rest target

/-- The full count lookup of `handleUnreadUpdates`: direct `get` on the
resolved identifier, else — when it is truthy and not a `^`-prefixed
system pseudo-identifier — the fuzzy scan. -/
def lookupCount (um : List (String × Int)) (resolvedId : String) : Option Int :=
  match mapGet um resolvedId with
  | some c => some c
  | none =>
    if resolvedId != "" && !strStarts resolvedId "^" then
      fuzzyScan um (normalizeKey resolvedId)
    else none

/-- A rendered `.gmail-tab` element as `handleUnreadUpdates` reads and
writes it: `dataset.value`, `dataset.type`, and the text of the
`.unread-count` child span (`none` = no such span). -/
structure TabEl where
  value : Option String
  dtype : Option String
  unreadSpan : Option String
deriving DecidableEq

/-- The body of the per-tab arrow function in `handleUnreadUpdates`:
skip falsy `dataset.value`; derive, resolve and look up the identifier;
write `count > 0 ? count.toString() : ''` into the span when a count
was found, else change nothing. -/
def processTab (domMap : String → Option String) (um : List (String × Int))
    (t : TabEl) : TabEl :=
  match t.value with
  | none => t
  | some v =>
    if v = "" then t
    else
      let resolvedId := resolveId domMap (deriveLabelId t.dtype v)
      match lookupCount um resolvedId with
      | some c =>
        match t.unreadSpan with
        | some _ => { t with unreadSpan := some (if c > 0 then toString c else "") }
        | none => t
      | none => t

/-- Embeds `handleUnreadUpdates`: build the batch's lookup table, then
process every rendered tab element against it. -/
def handleUnreadUpdates (domMap : String → Option String)
    (updates : List UnreadUpdate) (tabs : List TabEl) : List TabEl :=
  tabs.map (processTab domMap (buildUpdateMap updates))

/-! ### Helper lemmas -/

/-- `labelForFeed` never produces `undefined`: the variable is
initialized to `''` and every branch assigns a string, so the
`labelForFeed !== undefined` guard in `updateUnreadCount` always
passes. -/
theorem labelForFeed_isSome (tab : Tab) : (labelForFeed tab).isSome = true := by
  unfold labelForFeed
  cases tab.ttype with
  | label => rfl
  | hash =>
    dsimp only
    split
    · rfl
    · split <;> rfl

theorem updateUnreadCount_eq (tab : Tab) (outcome : FetchOutcome)
    (scraped : String) :
    updateUnreadCount tab outcome scraped =
      match feedPhase outcome with
      | some b => ⟨b, true, false⟩
      | none => ⟨scraped, true, true⟩ := by
  have h := labelForFeed_isSome tab
  unfold updateUnreadCount
  cases hl : labelForFeed tab with
  | none => rw [hl] at h; simp at h
  | some s => rfl

/-! ### Claims -/

/-- C8: `normalizeLabel` maps the cosmetic variants `"Work/Clients"`,
`"work-clients"` and `"Work_Clients"` to one key, and the relation
"same normalized form" is an equivalence relation on strings. -/
theorem claim_C8_fuzzy_normalization :
    (normalizeLabel "Work/Clients" = normalizeLabel "work-clients"
      ∧ normalizeLabel "work-clients" = normalizeLabel "Work_Clients")
    ∧ Equivalence (fun a b : String => normalizeLabel a = normalizeLabel b) :=
  ⟨⟨by decide, by decide⟩, ⟨fun _ => rfl, Eq.symm, Eq.trans⟩⟩

/-- C1 (evidence of the code bug): contrary to the claim, the feed
phase of `updateUnreadCount` performs the network request for every
shortcut, including ViewTargets that are neither the inbox route nor a
category sub-route.  `labelForFeed` is initialized to `''` and never
becomes `undefined`, so `'#starred'` (and `'#search/...'`) fetch the
inbox feed (empty segment) instead of returning null without a
request. -/
theorem claim_C1_feed_always_requests :
    labelForFeed ⟨.hash, "#starred"⟩ = some ""
      ∧ (updateUnreadCount ⟨.hash, "#starred"⟩ .respNotOk "").requestMade = true
      ∧ labelForFeed ⟨.hash, "#search/has%3Aattachment"⟩ = some ""
      ∧ (updateUnreadCount ⟨.hash, "#search/has%3Aattachment"⟩ .fetchError
          "").requestMade = true := by
  decide

/-- C9: an OK feed response whose `fullcount` text is present but
unparseable (`parseInt` gives `NaN`) hides the badge and skips the
scraper; the scraper runs exactly when the feed phase yields nothing,
which happens exactly on fetch error, non-OK response, missing
`fullcount`, or empty `fullcount` text. -/
theorem claim_C9_nan_fullcount_hides_badge :
    ∀ (tab : Tab) (scraped t : String) (outcome : FetchOutcome),
      (t ≠ "" → jsParseInt t = none →
        updateUnreadCount tab (.okDoc (some t)) scraped = ⟨"", true, false⟩)
      ∧ ((updateUnreadCount tab outcome scraped).scraperInvoked = true ↔
          feedPhase outcome = none)
      ∧ (feedPhase outcome = none ↔
          (outcome = .fetchError ∨ outcome = .respNotOk
            ∨ outcome = .okDoc none ∨ outcome = .okDoc (some ""))) := by
  intro tab scraped t outcome
  refine ⟨?_, ?_, ?_⟩
  · intro ht hp
    rw [updateUnreadCount_eq]
    have : feedPhase (.okDoc (some t)) = some "" := by
      simp only [feedPhase, if_neg ht, hp]
    rw [this]
  · rw [updateUnreadCount_eq]
    cases h : feedPhase outcome <;> simp
  · cases outcome with
    | fetchError => simp [feedPhase]
    | respNotOk => simp [feedPhase]
    | okDoc t? =>
      cases t? with
      | none => simp [feedPhase]
      | some s =>
        by_cases hs : s = ""
        · simp [feedPhase, hs]
        · simp only [feedPhase, if_neg hs]
          cases hp : jsParseInt s with
          | none => simp [hs]
          | some n => simp [hs]; split <;> simp

/-- C9 witness: a concrete unparseable `fullcount` text. -/
theorem claim_C9_witness :
    updateUnreadCount ⟨.label, "Invoices"⟩ (.okDoc (some "abc")) "9" =
      ⟨"", true, false⟩ :=
  (claim_C9_nan_fullcount_hides_badge ⟨.label, "Invoices"⟩ "9" "abc"
    .respNotOk).1 (by decide) (by decide)

/-- When the feed phase parsed an integer, it writes the badge derived
from it (positive: decimal text; zero or negative: empty). -/
theorem feedPhase_of_fetched {o : FetchOutcome} {n : Int}
    (h : fetchedCount o = some n) :
    feedPhase o = some (if 0 < n then toString n else "") := by
  cases o with
  | fetchError => simp [fetchedCount] at h
  | respNotOk => simp [fetchedCount] at h
  | okDoc t? =>
    cases t? with
    | none => simp [fetchedCount] at h
    | some t =>
      simp only [fetchedCount] at h
      by_cases ht : t = ""
      · simp [ht] at h
      · rw [if_neg ht] at h
        simp only [feedPhase, if_neg ht, h]
        by_cases hn : 0 < n <;> simp [hn]

/-- C3 counterexample: the claim as stated fails.  On an OK response
whose `fullcount` text is `"-5"`, the fetcher yields the non-null count
`-5`, yet the badge is written as the empty string, not as the integer
text `"-5"`. -/
theorem claim_C3_counterexample :
    fetchedCount (.okDoc (some "-5")) = some (-5)
      ∧ (updateUnreadCount ⟨.label, "Work"⟩ (.okDoc (some "-5")) "x").badge = ""
      ∧ toString (-5 : Int) = "-5"
      ∧ (("" : String) == "-5") = false := by
  decide

/-- C3 (amended): Path A waterfall.  The feed fetch is always attempted
first; whenever the feed phase yields a badge value (positive parsed
count: its decimal text; zero, negative or unparseable: the empty
string) it is written and the scraper is never invoked; when the feed
phase yields nothing, the scraper runs and its result — even the empty
string — is the badge. -/
theorem claim_C3_amended_waterfall :
    ∀ (tab : Tab) (outcome : FetchOutcome) (scraped : String),
      (updateUnreadCount tab outcome scraped).requestMade = true
      ∧ (∀ b, feedPhase outcome = some b →
            (updateUnreadCount tab outcome scraped).scraperInvoked = false
            ∧ (updateUnreadCount tab outcome scraped).badge = b)
      ∧ (∀ n, fetchedCount outcome = some n →
            (updateUnreadCount tab outcome scraped).scraperInvoked = false
            ∧ (updateUnreadCount tab outcome scraped).badge =
                (if 0 < n then toString n else ""))
      ∧ (feedPhase outcome = none →
            (updateUnreadCount tab outcome scraped).scraperInvoked = true
            ∧ (updateUnreadCount tab outcome scraped).badge = scraped) := by
  intro tab outcome scraped
  rw [updateUnreadCount_eq]
  refine ⟨?_, ?_, ?_, ?_⟩
  · cases h : feedPhase outcome <;> rfl
  · intro b hb
    rw [hb]
    exact ⟨rfl, rfl⟩
  · intro n hn
    rw [feedPhase_of_fetched hn]
    exact ⟨rfl, rfl⟩
  · intro h
    rw [h]
    exact ⟨rfl, rfl⟩

/-- C3 witness: a successful fetch with count 3 short-circuits the
scraper and shows `"3"`; a failed fetch falls through to the scraper
and its result is the badge. -/
theorem claim_C3_amended_witness :
    ((updateUnreadCount ⟨.label, "Work"⟩ (.okDoc (some "3")) "x").scraperInvoked
        = false
      ∧ (updateUnreadCount ⟨.label, "Work"⟩ (.okDoc (some "3")) "x").badge = "3")
    ∧ ((updateUnreadCount ⟨.label, "Work"⟩ .fetchError "sc").scraperInvoked = true
      ∧ (updateUnreadCount ⟨.label, "Work"⟩ .fetchError "sc").badge = "sc") :=
  ⟨(claim_C3_amended_waterfall ⟨.label, "Work"⟩ (.okDoc (some "3")) "x").2.1 "3"
      (by decide),
   (claim_C3_amended_waterfall ⟨.label, "Work"⟩ .fetchError "sc").2.2.2 rfl⟩

/-- C7: the Decoder pipeline is a total function; the anti-hijacking
marker (the 4 characters and newline of the regex) is removed when
present; and whenever the parser fails on the stripped input the
pipeline produces no Update Events. -/
theorem claim_C7_decoder_total_on_parse_failure :
    ∀ (jsonParse : String → Option JsonValue) (text : String),
      (∀ rest : List Char,
          antiHijackStrip (String.mk (antiHijackMarker ++ rest)) = String.mk rest)
      ∧ (jsonParse (antiHijackStrip text) = none →
          processResponse jsonParse text = []) := by
  intro parse text
  constructor
  · intro rest
    rfl
  · intro h
    simp [processResponse, parseGmailJson, h]

/-- C7 witness: a concrete marker-carrying input and a concrete
unparseable input. -/
theorem claim_C7_witness :
    antiHijackStrip (String.mk (antiHijackMarker ++ [']'])) = String.mk [']']
      ∧ processResponse (fun _ => none) "not json" = [] :=
  ⟨(claim_C7_decoder_total_on_parse_failure (fun _ => none) "not json").1 [']'],
   (claim_C7_decoder_total_on_parse_failure (fun _ => none) "not json").2 rfl⟩

/-- Every tuple candidate accepted at an array node passed the
plausibility filter. -/
theorem tupleCand_valid (xs : List JsonValue) :
    ∀ u ∈ tupleCand xs, isValidLabel u.label = true := by
  intro u hu
  unfold tupleCand at hu
  split at hu
  · split at hu
    · rename_i h
      rw [List.mem_singleton] at hu
      subst hu
      exact h
    · simp at hu
  · simp at hu

mutual

theorem findCounts_valid (v : JsonValue) :
    ∀ u ∈ findCounts v, isValidLabel u.label = true := by
  cases v with
  | null => intro u hu; simp [findCounts] at hu
  | bool b => intro u hu; simp [findCounts] at hu
  | num n => intro u hu; simp [findCounts] at hu
  | str s => intro u hu; simp [findCounts] at hu
  | arr xs =>
    intro u hu
    simp only [findCounts] at hu
    rcases List.mem_append.mp hu with h | h
    · exact tupleCand_valid xs u h
    · exact findCountsList_valid xs u h
  | obj fs =>
    intro u hu
    simp only [findCounts] at hu
    exact findCountsFields_valid fs u hu

theorem findCountsList_valid (xs : List JsonValue) :
    ∀ u ∈ findCountsList xs, isValidLabel u.label = true := by
  cases xs with
  | nil => intro u hu; simp [findCountsList] at hu
  | cons x xs =>
    intro u hu
    simp only [findCountsList] at hu
    rcases List.mem_append.mp hu with h | h
    · exact findCounts_valid x u h
    · exact findCountsList_valid xs u h

theorem findCountsFields_valid (fs : List (String × JsonValue)) :
    ∀ u ∈ findCountsFields fs, isValidLabel u.label = true := by
  cases fs with
  | nil => intro u hu; simp [findCountsFields] at hu
  | cons p fs =>
    intro u hu
    obtain ⟨k, v⟩ := p
    simp only [findCountsFields] at hu
    rcases List.mem_append.mp hu with h | h
    · exact findCounts_valid v u h
    · exact findCountsFields_valid fs u h

end

/-- C2 counterexample: the claim as stated is false — the walk does not
constrain the sign of the count, so the parsed structure
`["Work", -3]` emits exactly one event, and its count is negative. -/
theorem claim_C2_counterexample :
    findCounts (JsonValue.arr [.str "Work", .num (-3)])
        = [⟨"Work", -3⟩]
      ∧ ((-3 : Int) < 0) := by
  decide

/-- C2 (amended): for every input string (any parser behavior), the
Decoder never throws (it is a total function) and every emitted Update
Event's `rawIdentifier` passes the plausibility filter: non-empty, no
`'http'`, no `'gmail/att/'`, not starting with `'/'`, length at most
80.  The emitted count is whatever number sat in the tuple — an
integer here, but not necessarily non-negative. -/
theorem claim_C2_amended_filter :
    ∀ (jsonParse : String → Option JsonValue) (text : String),
      ∀ u ∈ processResponse jsonParse text, isValidLabel u.label = true := by
  intro parse text u hu
  cases hp : parseGmailJson parse text with
  | none => simp [processResponse, hp] at hu
  | some data =>
    simp only [processResponse, hp] at hu
    split at hu
    · simp at hu
    · exact findCounts_valid data u hu

/-- C2 witness: a concrete emitted event passes the filter. -/
theorem claim_C2_amended_witness : isValidLabel "Work" = true :=
  claim_C2_amended_filter (fun _ => some (.arr [.str "Work", .num 3])) "x"
    ⟨"Work", 3⟩ (by decide)

/-- The tuple `[label, count, ...]` occurs as an array node somewhere in
the structure: at the node itself, inside some array element, or inside
some object property value. -/
inductive ContainsTuple (label : String) (count : Int) : JsonValue → Prop where
  | here (rest : List JsonValue) :
      ContainsTuple label count (.arr (.str label :: .num count :: rest))
  | inArr {v : JsonValue} (xs : List JsonValue) :
      v ∈ xs → ContainsTuple label count v → ContainsTuple label count (.arr xs)
  | inObj {v : JsonValue} (fs : List (String × JsonValue)) (k : String) :
      (k, v) ∈ fs → ContainsTuple label count v →
      ContainsTuple label count (.obj fs)

/-- The walk visits every array element. -/
theorem mem_findCountsList {u : UnreadUpdate} {v : JsonValue}
    {xs : List JsonValue} (hv : v ∈ xs) (hu : u ∈ findCounts v) :
    u ∈ findCountsList xs := by
  induction xs with
  | nil => cases hv
  | cons x xs ih =>
    simp only [findCountsList, List.mem_append]
    rcases List.mem_cons.mp hv with h | h
    · subst h; exact Or.inl hu
    · exact Or.inr (ih h)

/-- The walk visits every object property value. -/
theorem mem_findCountsFields {u : UnreadUpdate} {v : JsonValue} {k : String}
    {fs : List (String × JsonValue)} (hv : (k, v) ∈ fs)
    (hu : u ∈ findCounts v) : u ∈ findCountsFields fs := by
  induction fs with
  | nil => cases hv
  | cons p fs ih =>
    obtain ⟨a, b⟩ := p
    simp only [findCountsFields, List.mem_append]
    rcases List.mem_cons.mp hv with h | h
    · injection h with h1 h2
      subst h1; subst h2
      exact Or.inl hu
    · exact Or.inr (ih h)

/-- C5: wherever the tuple `["CustomLabel", 7]` occurs in the nested
structure — any depth, any siblings — the walk emits the event
`{rawIdentifier: "CustomLabel", count: 7}`. -/
theorem claim_C5_decoder_roundtrip :
    ∀ v : JsonValue, ContainsTuple "CustomLabel" 7 v →
      (⟨"CustomLabel", 7⟩ : UnreadUpdate) ∈ findCounts v := by
  intro v h
  induction h with
  | here rest =>
    simp only [findCounts, List.mem_append]
    left
    simp only [tupleCand]
    rw [if_pos (by decide : isValidLabel "CustomLabel" = true)]
    exact List.mem_singleton.mpr rfl
  | inArr xs hmem hct ih =>
    simp only [findCounts, List.mem_append]
    exact Or.inr (mem_findCountsList hmem ih)
  | inObj fs k hmem hct ih =>
    simp only [findCounts]
    exact mem_findCountsFields hmem ih

/-- A concrete nested structure with the tuple buried under an object
field and an array, with sibling noise. -/
def sampleTree : JsonValue :=
  .obj [("threads", .arr [.arr [.str "CustomLabel", .num 7, .bool true],
                          .str "noise"]),
        ("x", .num 9)]

/-- C5 witness: the event surfaces from `sampleTree`. -/
theorem claim_C5_witness :
    (⟨"CustomLabel", 7⟩ : UnreadUpdate) ∈ findCounts sampleTree :=
  claim_C5_decoder_roundtrip sampleTree
    (ContainsTuple.inObj _ "threads" (List.Mem.head _)
      (ContainsTuple.inArr _ (List.Mem.head _)
        (ContainsTuple.here [.bool true])))

/-- C6 counterexample: the claim as stated is false.  With
`aria-label = "Hello"` (present, non-empty, no unread-digit pattern)
and a `.bsU` badge element whose text is `"7"`, the extraction returns
`''` — the badge element's text is NOT used. -/
theorem claim_C6_counterexample :
    matchUnread (String.toList "Hello") = none
      ∧ bsUPart ⟨some "Hello", some "7"⟩ = "7"
      ∧ extractLinkCount ⟨some "Hello", some "7"⟩ = ""
      ∧ (("" : String) == "7") = false := by
  decide

/-- C6 (amended): once a matching category link is found, the
accessible-name digit pattern is tried first and its digit group
returned on success; the `.bsU` badge element's text is used only when
the accessible-name attribute is absent or empty; when the attribute is
present and non-empty but contains no unread-digit pattern, the empty
string is returned without consulting the badge element. -/
theorem claim_C6_amended_extraction :
    ∀ link : CatLink,
      (∀ a d, link.ariaLabel = some a → matchUnread a.toList = some d →
          extractLinkCount link = d)
      ∧ (∀ a, link.ariaLabel = some a → a ≠ "" → matchUnread a.toList = none →
          extractLinkCount link = "")
      ∧ ((link.ariaLabel = none ∨ link.ariaLabel = some "") →
          extractLinkCount link = bsUPart link) := by
  intro link
  obtain ⟨al, bs⟩ := link
  refine ⟨?_, ?_, ?_⟩
  · intro a d ha hm
    cases al with
    | none => simp at ha
    | some a2 =>
      have h2 : a2 = a := by injection ha
      subst h2
      by_cases h0 : a2 = ""
      · subst h0
        exact Option.noConfusion hm
      · simp only [String.toList] at hm
        simp [extractLinkCount, h0, hm]
  · intro a ha h0 hm
    cases al with
    | none => simp at ha
    | some a2 =>
      have h2 : a2 = a := by injection ha
      subst h2
      simp only [String.toList] at hm
      simp [extractLinkCount, h0, hm]
  · intro h
    cases al with
    | none => rfl
    | some a2 =>
      rcases h with h | h
      · simp at h
      · have h2 : a2 = "" := by injection h
        subst h2
        rfl

/-- C6 witness: a pattern-bearing accessible name and an absent one. -/
theorem claim_C6_amended_witness :
    extractLinkCount ⟨some "Inbox, 12 unread", some "7"⟩ = "12"
      ∧ extractLinkCount ⟨none, some "7"⟩ = "7" :=
  ⟨(claim_C6_amended_extraction ⟨some "Inbox, 12 unread", some "7"⟩).1
      "Inbox, 12 unread" "12" rfl (by decide),
   ((claim_C6_amended_extraction ⟨none, some "7"⟩).2.2 (Or.inl rfl)).trans rfl⟩

/-- C4: Path B per-shortcut badge semantics.  For a rendered shortcut
element (truthy `dataset.value`): when the direct-or-fuzzy lookup finds
a count for its resolved identifier, the badge text becomes the decimal
text for a positive count and the empty string for a zero count; when
no count is found, the element is left exactly as it was. -/
theorem claim_C4_pathB_badge_update :
    ∀ (domMap : String → Option String) (updates : List UnreadUpdate)
      (t : TabEl) (v : String), t.value = some v → v ≠ "" →
      ((∀ c, lookupCount (buildUpdateMap updates)
              (resolveId domMap (deriveLabelId t.dtype v)) = some c →
          ((0 < c → (processTab domMap (buildUpdateMap updates) t).unreadSpan
              = t.unreadSpan.map (fun _ => toString c))
            ∧ (c = 0 → (processTab domMap (buildUpdateMap updates) t).unreadSpan
              = t.unreadSpan.map (fun _ => ""))))
        ∧ (lookupCount (buildUpdateMap updates)
              (resolveId domMap (deriveLabelId t.dtype v)) = none →
            processTab domMap (buildUpdateMap updates) t = t)) := by
  intro domMap updates t v hv hne
  obtain ⟨tv, dt, sp⟩ := t
  simp only at hv
  subst hv
  constructor
  · intro c hc
    constructor
    · intro hpos
      simp only [processTab, if_neg hne]
      simp only at hc
      rw [hc]
      cases sp with
      | none => rfl
      | some s => simp [hpos]
    · intro hzero
      subst hzero
      simp only [processTab, if_neg hne]
      simp only at hc
      rw [hc]
      cases sp with
      | none => rfl
      | some s => simp
  · intro hc
    simp only [processTab, if_neg hne]
    simp only at hc
    rw [hc]

/-- C4 witness: the spec's end-to-end scenario — a primary-view
shortcut and a batch `{label: "^i", count: 0}` hide the badge (explicit
zero, distinct from "no data"). -/
theorem claim_C4_witness :
    (processTab (fun _ => none) (buildUpdateMap [⟨"^i", 0⟩])
        ⟨some "#inbox", some "hash", some "3"⟩).unreadSpan = some "" := by
  have h := ((claim_C4_pathB_badge_update (fun _ => none) [⟨"^i", 0⟩]
      ⟨some "#inbox", some "hash", some "3"⟩ "#inbox" rfl (by decide)).1 0
      (by decide)).2 rfl
  simpa using h

/-! ### C10: the batch lookup table keeps the last occurrence -/

/-- The claim's notion of the batch's final count for an identifier:
the count of the last event in batch order carrying it. -/
def lastCountInBatch : List UnreadUpdate → String → Option Int
  | [], _ => none
  | u :: us, k =>
    match lastCountInBatch us k with
    | some c => some c
    | none => if u.label = k then some u.count else none

theorem mapGet_append (m l : List (String × Int)) (q : String) :
    mapGet (m ++ l) q =
      match mapGet m q with
      | some c => some c
      | none => mapGet l q := by
  induction m with
  | nil => simp [mapGet]
  | cons p m ih =>
    obtain ⟨a, b⟩ := p
    by_cases h : a = q
    · simp [mapGet, h]
    · simp [mapGet, h, ih]

theorem hasKey_false_mapGet_none (m : List (String × Int)) (k : String)
    (h : hasKey m k = false) : mapGet m k = none := by
  induction m with
  | nil => rfl
  | cons p m ih =>
    obtain ⟨a, b⟩ := p
    by_cases hak : a = k
    · simp [hasKey, hak] at h
    · simp only [hasKey, if_neg hak] at h
      simp only [mapGet, if_neg hak]
      exact ih h

theorem mapGet_overwrite_self (k : String) (v : Int)
    (m : List (String × Int)) (hm : hasKey m k = true) :
    mapGet (m.map (overwriteEntry k v)) k = some v := by
  induction m with
  | nil => simp [hasKey] at hm
  | cons p m ih =>
    obtain ⟨a, b⟩ := p
    by_cases hak : a = k
    · subst hak
      have h1 : overwriteEntry a v (a, b) = (a, v) := by
        simp [overwriteEntry]
      rw [List.map_cons, h1]
      simp [mapGet]
    · simp only [hasKey, if_neg hak] at hm
      have h1 : overwriteEntry k v (a, b) = (a, b) := by
        simp [overwriteEntry, hak]
      rw [List.map_cons, h1]
      simp only [mapGet]
      rw [if_neg hak]
      exact ih hm

theorem mapGet_overwrite_ne (k : String) (v : Int) (q : String)
    (m : List (String × Int)) (hqk : q ≠ k) :
    mapGet (m.map (overwriteEntry k v)) q = mapGet m q := by
  induction m with
  | nil => rfl
  | cons p m ih =>
    obtain ⟨a, b⟩ := p
    by_cases hak : a = k
    · subst hak
      have h1 : overwriteEntry a v (a, b) = (a, v) := by
        simp [overwriteEntry]
      rw [List.map_cons, h1]
      simp only [mapGet]
      rw [if_neg (Ne.symm hqk), if_neg (Ne.symm hqk)]
      exact ih
    · have h1 : overwriteEntry k v (a, b) = (a, b) := by
        simp [overwriteEntry, hak]
      rw [List.map_cons, h1]
      simp only [mapGet]
      by_cases haq : a = q
      · rw [if_pos haq, if_pos haq]
      · rw [if_neg haq, if_neg haq]
        exact ih

/-- `Map.set` semantics on lookups: the set key now maps to the new
value, every other key is untouched. -/
theorem mapGet_jsMapSet (m : List (String × Int)) (k : String) (v : Int)
    (q : String) :
    mapGet (jsMapSet m k v) q = if q = k then some v else mapGet m q := by
  unfold jsMapSet
  by_cases hm : hasKey m k
  · rw [if_pos hm]
    by_cases hqk : q = k
    · subst hqk
      rw [if_pos rfl]
      exact mapGet_overwrite_self q v m hm
    · rw [if_neg hqk]
      exact mapGet_overwrite_ne k v q m hqk
  · rw [if_neg hm]
    rw [mapGet_append]
    rw [Bool.not_eq_true] at hm
    by_cases hqk : q = k
    · subst hqk
      rw [hasKey_false_mapGet_none m q hm]
      simp [mapGet]
    · rw [if_neg hqk]
      cases hg : mapGet m q with
      | some c => rfl
      | none =>
        simp only [mapGet]
        rw [if_neg (Ne.symm hqk)]

theorem buildUpdateMap_append (us : List UnreadUpdate) (u : UnreadUpdate) :
    buildUpdateMap (us ++ [u]) = jsMapSet (buildUpdateMap us) u.label u.count := by
  unfold buildUpdateMap
  rw [List.foldl_append]
  rfl

theorem lastCountInBatch_append (us : List UnreadUpdate) (u : UnreadUpdate)
    (k : String) :
    lastCountInBatch (us ++ [u]) k =
      if u.label = k then some u.count else lastCountInBatch us k := by
  induction us with
  | nil => simp [lastCountInBatch]
  | cons w us ih =>
    simp only [List.cons_append, lastCountInBatch, List.append_eq]
    rw [ih]
    by_cases hu : u.label = k
    · simp [hu]
    · simp [hu]

/-- C10: the identifier→count table Path B builds from a batch keeps,
for every identifier, the count of the identifier's last occurrence in
batch order — later duplicates overwrite earlier ones, so any badge
written from the table shows the batch's final count. -/
theorem claim_C10_last_occurrence_wins :
    ∀ (updates : List UnreadUpdate) (k : String),
      mapGet (buildUpdateMap updates) k = lastCountInBatch updates k := by
  intro updates k
  induction updates using List.reverseRecOn with
  | nil => rfl
  | append_singleton us u ih =>
    rw [buildUpdateMap_append, mapGet_jsMapSet, lastCountInBatch_append]
    by_cases h : u.label = k
    · subst h
      simp
    · rw [if_neg h, if_neg (fun hh => h hh.symm)]
      exact ih
